import Mathlib

/-!
Shallow embedding of the `permute` compiler's analysis pass
(`src/compile/src/analyze.rs` and the analysis portion of
`src/compile/src/lib.rs`), together with theorems settling the frozen
claims about it.

The embedding mirrors the source:
* the HIR expression shapes consulted by `no_forbidden_loops`'s
  `check_expr`/`check_stmt`/`check_block` (each `ExprKind` arm of the
  source `match` becomes one constructor; payloads are restricted to the
  sub-expressions the checker actually visits, since the other payload
  data is only logged);
* the per-function callee lists consulted by `no_recursion`
  (`mir_inliner_callees`) and the call-graph reachability oracle
  (`mir_callgraph_reachable`);
* the trait-path matching and sink/source collection of
  `SinksAndSources`, and the index lookup of `run_analyze`.
-/

namespace Permute

/-- `rustc_hir::Constness`, as tested by `sig.header.constness == Constness::Const`. -/
inductive Constness
  | const
  | notConst
  deriving DecidableEq, Repr

/-- `rustc_hir::MatchSource`; `check_expr` only distinguishes `ForLoopDesugar`,
every other variant falls through to the normal match handling. -/
inductive MatchSource
  | normal
  | forLoopDesugar
  | tryDesugar
  | awaitDesugar
  deriving DecidableEq, Repr

mutual

/-- The expression shapes of `rustc_hir::ExprKind` as matched by `check_expr`
(analyze.rs lines 76-159).  A match arm is represented by its body expression
(the source only visits `arm.body`); a closure carries its own constness flag
and its body (the source resolves `closure.body` through the HIR map, which
the embedding inlines). -/
inductive Expr
  | constBlock (body : Expr)
  | array (exprs : List Expr)
  | call (f : Expr) (args : List Expr)
  | methodCall (recv : Expr) (args : List Expr)
  | tup (exprs : List Expr)
  | binary (lhs rhs : Expr)
  | unary (arg : Expr)
  | lit
  | cast
  | typeAscription
  | dropTemps (arg : Expr)
  | letExpr (init : Expr)
  | ifE (cond thenB : Expr) (elseB : Option Expr)
  | loop
  | matchE (scrut : Expr) (arms : List Expr) (src : MatchSource)
  | closure (constness : Constness) (body : Expr)
  | block (b : Block)
  | assign (lhs rhs : Expr)
  | assignOp (lhs rhs : Expr)
  | field (arg : Expr)
  | index (lhs rhs : Expr)
  | path
  | addrOf (arg : Expr)
  | breakE (arg : Option Expr)
  | continueE
  | ret (arg : Option Expr)
  | become (arg : Expr)
  | inlineAsm
  | offsetOf
  | structE (fields : List Expr) (base : Option Expr)
  | repeatE (arg : Expr)
  | yieldE (arg : Expr)
  | errE

/-- `rustc_hir::Block`: statements plus an optional trailing expression. -/
inductive Block
  | mk (stmts : List Stmt) (expr : Option Expr)

/-- `rustc_hir::StmtKind` as matched by `check_stmt` (analyze.rs lines 162-174). -/
inductive Stmt
  | item
  | expr (e : Expr)
  | semi (e : Expr)
  | letS (init : Option Expr) (els : Option Block)

end

mutual

/-- `check_expr` (analyze.rs lines 70-160).  Each arm corresponds to the
source arm of the same shape; iterator `all`/early-return loops over lists
become `check_exprs`. -/
def check_expr : Expr → Bool
  | .constBlock _ => true
  | .array exprs => check_exprs exprs
  | .call _ args => check_exprs args
  | .methodCall recv args => check_expr recv && check_exprs args
  | .tup exprs => check_exprs exprs
  | .binary lhs rhs => check_expr lhs && check_expr rhs
  | .unary arg => check_expr arg
  | .lit => true
  | .cast => true
  | .typeAscription => true
  | .dropTemps arg => check_expr arg
  | .letExpr init => check_expr init
  | .ifE cond thenB elseB =>
      check_expr cond && check_expr thenB && check_opt_expr elseB
  | .loop => false
  | .matchE scrut arms src =>
      if src = .forLoopDesugar then false
      else check_expr scrut && check_exprs arms
  | .closure constness body =>
      if constness = .const then true else check_body body
  | .block b => check_block b
  | .assign lhs rhs => check_expr lhs && check_expr rhs
  | .assignOp lhs rhs => check_expr lhs && check_expr rhs
  | .field arg => check_expr arg
  | .index lhs rhs => check_expr lhs && check_expr rhs
  | .path => true
  | .addrOf arg => check_expr arg
  | .breakE arg => check_opt_expr arg
  | .continueE => true
  | .ret arg => check_opt_expr arg
  | .become arg => check_expr arg
  | .inlineAsm => true
  | .offsetOf => true
  | .structE fields base => check_exprs fields && check_opt_expr base
  | .repeatE arg => check_expr arg
  | .yieldE arg => check_expr arg
  | .errE => true

/-- Sequential checking of a list of sub-expressions with early return
(the source's `iter().all(..)` and explicit `for .. return false` loops). -/
def check_exprs : List Expr → Bool
  | [] => true
  | e :: es => check_expr e && check_exprs es

/-- `Option::map_or(true, |e| check_expr(hir, e))`. -/
def check_opt_expr : Option Expr → Bool
  | none => true
  | some e => check_expr e

/-- `check_body` (analyze.rs lines 57-68): the body lookup is inlined, so
checking a body is checking its value expression. -/
def check_body (e : Expr) : Bool := check_expr e

/-- `check_block` (analyze.rs lines 176-185): statements first with early
return, then the optional trailing expression. -/
def check_block : Block → Bool
  | .mk stmts e => check_stmts stmts && check_opt_expr e

/-- `Option::map_or(true, |b| check_block(hir, b))`. -/
def check_opt_block : Option Block → Bool
  | none => true
  | some b => check_block b

/-- `check_stmt` (analyze.rs lines 162-174). -/
def check_stmt : Stmt → Bool
  | .item => true
  | .expr e => check_expr e
  | .semi e => check_expr e
  | .letS init els => check_opt_expr init && check_opt_block els

/-- Sequential checking of a statement list with early return. -/
def check_stmts : List Stmt → Bool
  | [] => true
  | s :: ss => check_stmt s && check_stmts ss

end

mutual

/-- `ReachE e t` holds when the depth-first traversal performed by
`check_expr`, started at `e`, examines the node `t`.  The rules mirror the
recursion of `check_expr` exactly, including its short-circuiting: a later
operand is only reached when every earlier operand checked out, nodes inside
const blocks, const closures and desugared-for-loop matches are never
reached, and the callee of a call is not reached (only its arguments are). -/
inductive ReachE : Expr → Expr → Prop
  | refl (e) : ReachE e e
  | array {es t} : ReachL es t → ReachE (.array es) t
  | call {f es t} : ReachL es t → ReachE (.call f es) t
  | methodCallRecv {r es t} : ReachE r t → ReachE (.methodCall r es) t
  | methodCallArgs {r es t} : check_expr r = true → ReachL es t →
      ReachE (.methodCall r es) t
  | tup {es t} : ReachL es t → ReachE (.tup es) t
  | binaryL {l r t} : ReachE l t → ReachE (.binary l r) t
  | binaryR {l r t} : check_expr l = true → ReachE r t → ReachE (.binary l r) t
  | unary {e t} : ReachE e t → ReachE (.unary e) t
  | dropTemps {e t} : ReachE e t → ReachE (.dropTemps e) t
  | letExpr {e t} : ReachE e t → ReachE (.letExpr e) t
  | ifCond {c th el t} : ReachE c t → ReachE (.ifE c th el) t
  | ifThen {c th el t} : check_expr c = true → ReachE th t →
      ReachE (.ifE c th el) t
  | ifElse {c th el t} : check_expr c = true → check_expr th = true →
      ReachO el t → ReachE (.ifE c th el) t
  | matchScrut {s arms src t} : src ≠ .forLoopDesugar → ReachE s t →
      ReachE (.matchE s arms src) t
  | matchArms {s arms src t} : src ≠ .forLoopDesugar → check_expr s = true →
      ReachL arms t → ReachE (.matchE s arms src) t
  | closure {body t} : ReachE body t → ReachE (.closure .notConst body) t
  | blockB {b t} : ReachB b t → ReachE (.block b) t
  | assignL {l r t} : ReachE l t → ReachE (.assign l r) t
  | assignR {l r t} : check_expr l = true → ReachE r t → ReachE (.assign l r) t
  | assignOpL {l r t} : ReachE l t → ReachE (.assignOp l r) t
  | assignOpR {l r t} : check_expr l = true → ReachE r t →
      ReachE (.assignOp l r) t
  | field {e t} : ReachE e t → ReachE (.field e) t
  | indexL {l r t} : ReachE l t → ReachE (.index l r) t
  | indexR {l r t} : check_expr l = true → ReachE r t → ReachE (.index l r) t
  | addrOf {e t} : ReachE e t → ReachE (.addrOf e) t
  | breakE {e t} : ReachE e t → ReachE (.breakE (some e)) t
  | ret {e t} : ReachE e t → ReachE (.ret (some e)) t
  | become {e t} : ReachE e t → ReachE (.become e) t
  | structFields {fs b t} : ReachL fs t → ReachE (.structE fs b) t
  | structBase {fs b t} : check_exprs fs = true → ReachO b t →
      ReachE (.structE fs b) t
  | repeatE {e t} : ReachE e t → ReachE (.repeatE e) t
  | yieldE {e t} : ReachE e t → ReachE (.yieldE e) t

/-- The traversal reaches `t` inside a list of expressions: either in the
head, or in the tail after the head checked out. -/
inductive ReachL : List Expr → Expr → Prop
  | head {e es t} : ReachE e t → ReachL (e :: es) t
  | tail {e es t} : check_expr e = true → ReachL es t → ReachL (e :: es) t

/-- The traversal reaches `t` inside an optional expression. -/
inductive ReachO : Option Expr → Expr → Prop
  | some {e t} : ReachE e t → ReachO (some e) t

/-- The traversal reaches `t` inside a block: in a statement, or in the
trailing expression after every statement checked out. -/
inductive ReachB : Block → Expr → Prop
  | stmts {ss e t} : ReachSL ss t → ReachB (.mk ss e) t
  | tailExpr {ss e t} : check_stmts ss = true → ReachO e t → ReachB (.mk ss e) t

/-- The traversal reaches `t` inside a statement. -/
inductive ReachS : Stmt → Expr → Prop
  | expr {e t} : ReachE e t → ReachS (.expr e) t
  | semi {e t} : ReachE e t → ReachS (.semi e) t
  | letInit {init els t} : ReachO init t → ReachS (.letS init els) t
  | letEls {init b t} : check_opt_expr init = true → ReachB b t →
      ReachS (.letS init (some b)) t

/-- The traversal reaches `t` inside a list of statements. -/
inductive ReachSL : List Stmt → Expr → Prop
  | head {s ss t} : ReachS s t → ReachSL (s :: ss) t
  | tail {s ss t} : check_stmt s = true → ReachSL ss t → ReachSL (s :: ss) t

end

/-- `rustc_hir::FnSig`, restricted to the header constness the checker reads. -/
structure FnSig where
  constness : Constness
  deriving DecidableEq, Repr

/-- `rustc_hir::ItemKind` as matched by `check_item`: a `Fn` item with its
signature and (inlined) body, or any other item kind, which the loop checker
accepts unconditionally (`_ => true`). -/
inductive ItemKind
  | fn (sig : FnSig) (body : Expr)
  | other

/-- A HIR item as seen by the loop checker. -/
structure Item where
  kind : ItemKind

/-- `check_item` (analyze.rs lines 35-55): const functions are accepted
without traversal, other functions have their body checked, non-function
items are accepted. -/
def check_item (item : Item) : Bool :=
  match item.kind with
  | .fn sig body =>
      if sig.constness = .const then true else check_body body
  | .other => true

/-- `no_forbidden_loops` (analyze.rs lines 34-216): every item must pass
`check_item`; the loop returns `false` at the first failing item. -/
def no_forbidden_loops (items : List Item) : Bool :=
  items.all check_item

/-!
## Recursion checker (`no_recursion`, analyze.rs lines 218-277)

`no_recursion` consults, per definition of the compiled unit, the item kind
and constness, the MIR callee list (`mir_inliner_callees`) and the
reachability oracle `mir_callgraph_reachable`.
-/

/-- A callee as returned by `mir_inliner_callees`, after the source's
`callee.as_local()` test: resolved either to a definition local to the
compiled unit or to an external (trusted) one. -/
inductive CalleeRef
  | localDef (id : Nat)
  | externalDef
  deriving DecidableEq, Repr

/-- A `Fn` item as consumed by `no_recursion`: its definition id, its
header constness and its MIR callee list. -/
structure FnItem where
  id : Nat
  constness : Constness
  callees : List CalleeRef
  deriving DecidableEq, Repr

/-- A definition of the compiled unit: a `Fn` item, or any other item kind,
which `no_recursion` skips. -/
inductive RecDef
  | fnDef (f : FnItem)
  | otherDef
  deriving DecidableEq, Repr

/-- The part of the compiler context `no_recursion` consults: the
definitions of the compiled unit. -/
structure RecCtx where
  defs : List RecDef
  deriving DecidableEq, Repr

/-- The local MIR callees of the function with the given id (empty when no
such function exists). -/
def localCallees (ctx : RecCtx) (f : Nat) : List Nat :=
  (ctx.defs.map fun d =>
    match d with
    | .fnDef g =>
        if g.id = f then
          g.callees.filterMap fun c =>
            match c with
            | .localDef i => some i
            | .externalDef => none
        else []
    | .otherDef => []).flatten

/-- One expansion step of the call-graph search: keep the ids found so far
and add their direct local callees. -/
def reachStep (ctx : RecCtx) (s : List Nat) : List Nat :=
  (s ++ s.flatMap (localCallees ctx)).dedup

/-- Model of the external `rustc` query `mir_callgraph_reachable`, whose
semantics is "computing if `root` (transitively) calls `target`": whether
`target` occurs among the transitive MIR callees of `root`, through at
least one call edge (the search is seeded with the direct callees of
`root`, exactly as the query walks `mir_inliner_callees` starting from the
root instance).  Iterating the one-step expansion once per definition of
the unit reaches the closure. -/
def mir_callgraph_reachable (ctx : RecCtx) (root target : Nat) : Bool :=
  ((reachStep ctx)^[ctx.defs.length] (localCallees ctx root)).contains target

/-- `Recursion` (analyze.rs lines 218-221). -/
structure Recursion where
  callee : Nat
  caller : Nat
  deriving DecidableEq, Repr

/-- The violation list built by the loop of `no_recursion` (analyze.rs
lines 230-271): for every non-const `Fn` definition `def`, for every local
MIR callee, a `Recursion { callee: local, caller: def }` entry is pushed
when `mir_callgraph_reachable((instance-of-def, local))` holds; const
functions and external callees are skipped. -/
def recursion_errors (ctx : RecCtx) : List Recursion :=
  ctx.defs.flatMap fun d =>
    match d with
    | .fnDef f =>
        if f.constness = .const then []
        else
          f.callees.filterMap fun c =>
            match c with
            | .localDef g =>
                if mir_callgraph_reachable ctx f.id g then
                  some { callee := g, caller := f.id }
                else none
            | .externalDef => none
    | .otherDef => []

/-- `no_recursion` (analyze.rs lines 224-277): `Ok(())` when the collected
violation list is empty, `Err(errors)` otherwise. -/
def no_recursion (ctx : RecCtx) : Except (List Recursion) Unit :=
  if recursion_errors ctx = [] then .ok () else .error (recursion_errors ctx)

/-!
## Capability collection (analyze.rs lines 279-421, lib.rs lines 374-399)
-/

/-- `SINK_TRAIT_PATH` (analyze.rs line 25): `path!(::Sink)` with
`STD_NAME = "permute"`. -/
def SINK_TRAIT_PATH : List String := ["permute", "Sink"]

/-- `SOURCE_TRAIT_PATH` (analyze.rs line 28): `path!(::Source)`. -/
def SOURCE_TRAIT_PATH : List String := ["permute", "Source"]

/-- `is_sink_trait_path` (analyze.rs lines 384-395): the path's segment
names (each an `Option`, from `get_opt_name`) are zipped with the fixed
segments and compared pointwise; `Iterator::zip` stops at the shorter
sequence, which `List.zip` mirrors. -/
def is_sink_trait_path (segs : List (Option String)) : Bool :=
  (segs.zip SINK_TRAIT_PATH).all fun ab => decide (ab.1 = some ab.2)

/-- `is_source_trait_path` (analyze.rs lines 398-409). -/
def is_source_trait_path (segs : List (Option String)) : Bool :=
  (segs.zip SOURCE_TRAIT_PATH).all fun ab => decide (ab.1 = some ab.2)

/-- The HIR item kinds distinguished by `type_ids`, `impls` and
`SinksAndSources::collect_from`: an `Impl` (carrying, when its `of_trait`
reference is present and resolves to a definition, that trait's path
segments), an ADT declaration (with its effective visibility), or any
other item kind. -/
inductive HirItemKind
  | implItem (traitPath : Option (List (Option String)))
  | adtItem (directlyPublic : Bool)
  | otherItem
  deriving DecidableEq, Repr

/-- A free item of the crate with its owner `DefId`. -/
structure HirItem where
  id : Nat
  kind : HirItemKind
  deriving DecidableEq, Repr

/-- `type_ids` (analyze.rs lines 281-299): the ids of the ADT items that
are directly public. -/
def type_ids (items : List HirItem) : List Nat :=
  items.filterMap fun it =>
    match it.kind with
    | .adtItem true => some it.id
    | _ => none

/-- `impls` (analyze.rs lines 309-328): the `Impl` items of the crate. -/
def impls (items : List HirItem) : List HirItem :=
  items.filter fun it =>
    match it.kind with
    | .implItem _ => true
    | _ => false

/-- `is_impl_sink_trait` (analyze.rs lines 372-381): an `Impl` item whose
trait reference resolves and whose resolved path satisfies
`is_sink_trait_path`; `false` in every other case. -/
def is_impl_sink_trait (it : HirItem) : Bool :=
  match it.kind with
  | .implItem (some p) => is_sink_trait_path p
  | _ => false

/-- `is_impl_source_trait` (analyze.rs lines 412-421). -/
def is_impl_source_trait (it : HirItem) : Bool :=
  match it.kind with
  | .implItem (some p) => is_source_trait_path p
  | _ => false

/-- `SinksAndSources` (analyze.rs lines 330-333). -/
structure SinksAndSources where
  sinks : List Nat
  sources : List Nat
  deriving DecidableEq, Repr

/-- `SinksAndSources::collect_from` (analyze.rs lines 337-359): every impl
item is classified by the `if`/`else if` — a sink-trait impl goes into
`sinks`, otherwise a source-trait impl goes into `sources`, otherwise the
item is ignored; the pushed value is the item's owner `DefId`. -/
def collect_from (items : List HirItem) : SinksAndSources :=
  { sinks := (impls items).filterMap fun it =>
      if is_impl_sink_trait it then some it.id else none
    sources := (impls items).filterMap fun it =>
      if is_impl_sink_trait it then none
      else if is_impl_source_trait it then some it.id else none }

/-- `SinksAndSources::filter_not_in` (analyze.rs lines 365-368):
`retain(|x| !slice.contains(x))` on both lists. -/
def filter_not_in (s : SinksAndSources) (slice : List Nat) : SinksAndSources :=
  { sinks := s.sinks.filter fun x => decide (x ∉ slice)
    sources := s.sources.filter fun x => decide (x ∉ slice) }

/-- `pub_types.iter().position(|v| v == id)` (lib.rs lines 386 and 395). -/
def position (pub_types : List Nat) (id : Nat) : Option Nat :=
  pub_types.findIdx? fun v => decide (v = id)

/-- The classification part of `run_analyze` (lib.rs lines 374-399): the
public type ids are collected, the sinks and sources are collected and
filtered through `filter_not_in`, and each remaining id is turned into an
index into `pub_types` by `position(..).expect(..)`.  The `expect` is
modelled by the `Option` monad: a `none` result is the panic. -/
def run_analyze_classify (items : List HirItem) :
    Option (List Nat × List Nat) := do
  let pub_types := type_ids items
  let ss := filter_not_in (collect_from items) pub_types
  let sinks ← ss.sinks.mapM (position pub_types)
  let sources ← ss.sources.mapM (position pub_types)
  pure (sinks, sources)

/-!
## Concrete models used by the claim theorems
-/

/-- Two independent acyclic call chains `X → Y → Z` and `P → Q`
(definitions `0..4`), all non-const, with every call edge local. -/
def chainCtx : RecCtx :=
  ⟨[.fnDef ⟨0, .notConst, [.localDef 1]⟩,
    .fnDef ⟨1, .notConst, [.localDef 2]⟩,
    .fnDef ⟨2, .notConst, []⟩,
    .fnDef ⟨3, .notConst, [.localDef 4]⟩,
    .fnDef ⟨4, .notConst, []⟩]⟩

/-- One non-terminating self-recursive function `D → D` (definition `5`). -/
def selfRecCtx : RecCtx := ⟨[.fnDef ⟨5, .notConst, [.localDef 5]⟩]⟩

/-- One impl whose trait path equals the Source identity exactly (id `10`)
and one impl whose trait path is only a proper prefix of the Sink identity
(id `11`). -/
def capRegistryItems : List HirItem :=
  [⟨10, .implItem (some [some "permute", some "Source"])⟩,
   ⟨11, .implItem (some [some "permute"])⟩]

/-- One directly public ADT (id `1`) and one impl of the exact Sink trait
path (id `2`). -/
def lookupItems : List HirItem :=
  [⟨1, .adtItem true⟩, ⟨2, .implItem (some [some "permute", some "Sink"])⟩]

/-- The ids of the non-const `Fn` definitions of the unit: exactly the
definitions whose outgoing edges the recursion checker examines. -/
def nonconst_fn_ids (ctx : RecCtx) : List Nat :=
  ctx.defs.filterMap fun d =>
    match d with
    | .fnDef f => if f.constness = .const then none else some f.id
    | .otherDef => none

mutual

/-- If the traversal reaches a node whose own check fails, the whole
expression check fails. -/
theorem reachE_false : ∀ {e t : Expr}, ReachE e t → check_expr t = false →
    check_expr e = false
  | _, _, .refl _, ht => ht
  | _, _, .array h, ht => by
      simp only [check_expr]; exact reachL_false h ht
  | _, _, .call h, ht => by
      simp only [check_expr]; exact reachL_false h ht
  | _, _, .methodCallRecv h, ht => by
      simp only [check_expr]; rw [reachE_false h ht]; simp
  | _, _, .methodCallArgs hc h, ht => by
      simp only [check_expr]; rw [hc, reachL_false h ht]; simp
  | _, _, .tup h, ht => by
      simp only [check_expr]; exact reachL_false h ht
  | _, _, .binaryL h, ht => by
      simp only [check_expr]; rw [reachE_false h ht]; simp
  | _, _, .binaryR hc h, ht => by
      simp only [check_expr]; rw [hc, reachE_false h ht]; simp
  | _, _, .unary h, ht => by
      simp only [check_expr]; exact reachE_false h ht
  | _, _, .dropTemps h, ht => by
      simp only [check_expr]; exact reachE_false h ht
  | _, _, .letExpr h, ht => by
      simp only [check_expr]; exact reachE_false h ht
  | _, _, .ifCond h, ht => by
      simp only [check_expr]; rw [reachE_false h ht]; simp
  | _, _, .ifThen hc h, ht => by
      simp only [check_expr]; rw [hc, reachE_false h ht]; simp
  | _, _, .ifElse hc hth h, ht => by
      simp only [check_expr]; rw [hc, hth, reachO_false h ht]; simp
  | _, _, .matchScrut hsrc h, ht => by
      simp only [check_expr]; rw [if_neg hsrc, reachE_false h ht]; simp
  | _, _, .matchArms hsrc hs h, ht => by
      simp only [check_expr]; rw [if_neg hsrc, hs, reachL_false h ht]; simp
  | _, _, .closure h, ht => by
      simp only [check_expr]
      rw [if_neg (by simp)]
      simp only [check_body]; exact reachE_false h ht
  | _, _, .blockB h, ht => by
      simp only [check_expr]; exact reachB_false h ht
  | _, _, .assignL h, ht => by
      simp only [check_expr]; rw [reachE_false h ht]; simp
  | _, _, .assignR hc h, ht => by
      simp only [check_expr]; rw [hc, reachE_false h ht]; simp
  | _, _, .assignOpL h, ht => by
      simp only [check_expr]; rw [reachE_false h ht]; simp
  | _, _, .assignOpR hc h, ht => by
      simp only [check_expr]; rw [hc, reachE_false h ht]; simp
  | _, _, .field h, ht => by
      simp only [check_expr]; exact reachE_false h ht
  | _, _, .indexL h, ht => by
      simp only [check_expr]; rw [reachE_false h ht]; simp
  | _, _, .indexR hc h, ht => by
      simp only [check_expr]; rw [hc, reachE_false h ht]; simp
  | _, _, .addrOf h, ht => by
      simp only [check_expr]; exact reachE_false h ht
  | _, _, .breakE h, ht => by
      simp only [check_expr, check_opt_expr]; exact reachE_false h ht
  | _, _, .ret h, ht => by
      simp only [check_expr, check_opt_expr]; exact reachE_false h ht
  | _, _, .become h, ht => by
      simp only [check_expr]; exact reachE_false h ht
  | _, _, .structFields h, ht => by
      simp only [check_expr]; rw [reachL_false h ht]; simp
  | _, _, .structBase hf h, ht => by
      simp only [check_expr]; rw [hf, reachO_false h ht]; simp
  | _, _, .repeatE h, ht => by
      simp only [check_expr]; exact reachE_false h ht
  | _, _, .yieldE h, ht => by
      simp only [check_expr]; exact reachE_false h ht

/-- List version of `reachE_false`. -/
theorem reachL_false : ∀ {es : List Expr} {t : Expr}, ReachL es t →
    check_expr t = false → check_exprs es = false
  | _, _, .head h, ht => by
      simp only [check_exprs]; rw [reachE_false h ht]; simp
  | _, _, .tail hc h, ht => by
      simp only [check_exprs]; rw [hc, reachL_false h ht]; simp

/-- Optional-expression version of `reachE_false`. -/
theorem reachO_false : ∀ {o : Option Expr} {t : Expr}, ReachO o t →
    check_expr t = false → check_opt_expr o = false
  | _, _, .some h, ht => by
      simp only [check_opt_expr]; exact reachE_false h ht

/-- Block version of `reachE_false`. -/
theorem reachB_false : ∀ {b : Block} {t : Expr}, ReachB b t →
    check_expr t = false → check_block b = false
  | _, _, .stmts h, ht => by
      simp only [check_block]; rw [reachSL_false h ht]; simp
  | _, _, .tailExpr hs h, ht => by
      simp only [check_block]; rw [hs, reachO_false h ht]; simp

/-- Statement version of `reachE_false`. -/
theorem reachS_false : ∀ {s : Stmt} {t : Expr}, ReachS s t →
    check_expr t = false → check_stmt s = false
  | _, _, .expr h, ht => by
      simp only [check_stmt]; exact reachE_false h ht
  | _, _, .semi h, ht => by
      simp only [check_stmt]; exact reachE_false h ht
  | _, _, .letInit h, ht => by
      simp only [check_stmt]; rw [reachO_false h ht]; simp
  | _, _, .letEls hi h, ht => by
      simp only [check_stmt, check_opt_block]; rw [hi, reachB_false h ht]; simp

/-- Statement-list version of `reachE_false`. -/
theorem reachSL_false : ∀ {ss : List Stmt} {t : Expr}, ReachSL ss t →
    check_expr t = false → check_stmts ss = false
  | _, _, .head h, ht => by
      simp only [check_stmts]; rw [reachS_false h ht]; simp
  | _, _, .tail hc h, ht => by
      simp only [check_stmts]; rw [hc, reachSL_false h ht]; simp

end

/-!
## Supporting lemmas
-/

/-- `check_exprs` is the conjunction of `check_expr` over the list. -/
theorem check_exprs_eq_true_iff (es : List Expr) :
    check_exprs es = true ↔ ∀ e ∈ es, check_expr e = true := by
  induction es with
  | nil => simp [check_exprs]
  | cons e es ih => simp [check_exprs, ih]

/-- Membership in `(collect_from items).sinks` comes from a sink-trait impl. -/
theorem mem_collect_sinks {items : List HirItem} {x : Nat} :
    x ∈ (collect_from items).sinks ↔
      ∃ it, it ∈ impls items ∧ is_impl_sink_trait it = true ∧ it.id = x := by
  simp only [collect_from, List.mem_filterMap]
  constructor
  · rintro ⟨it, hmem, hsome⟩
    by_cases h : is_impl_sink_trait it
    · exact ⟨it, hmem, h, by simpa [h] using hsome⟩
    · simp [h] at hsome
  · rintro ⟨it, hmem, h, rfl⟩
    exact ⟨it, hmem, by simp [h]⟩

/-- Membership in `(collect_from items).sources` comes from a source-trait
impl that is not a sink-trait impl (the `else if`). -/
theorem mem_collect_sources {items : List HirItem} {x : Nat} :
    x ∈ (collect_from items).sources ↔
      ∃ it, it ∈ impls items ∧ is_impl_sink_trait it = false ∧
        is_impl_source_trait it = true ∧ it.id = x := by
  simp only [collect_from, List.mem_filterMap]
  constructor
  · rintro ⟨it, hmem, hsome⟩
    by_cases h : is_impl_sink_trait it
    · simp [h] at hsome
    · by_cases h2 : is_impl_source_trait it
      · refine ⟨it, hmem, by simp [h], h2, ?_⟩
        simpa [h, h2] using hsome
      · simp [h, h2] at hsome
  · rintro ⟨it, hmem, h, h2, rfl⟩
    exact ⟨it, hmem, by simp [h, h2]⟩

/-- `impls` only filters, so its members are members of the item list. -/
theorem mem_of_mem_impls {items : List HirItem} {it : HirItem}
    (h : it ∈ impls items) : it ∈ items :=
  List.mem_of_mem_filter h

/-- `reachStep` keeps the ids found so far. -/
theorem mem_reachStep_of_mem {ctx : RecCtx} {s : List Nat} {x : Nat}
    (h : x ∈ s) : x ∈ reachStep ctx s := by
  simp only [reachStep, List.mem_dedup, List.mem_append]
  exact Or.inl h

/-- Iterating `reachStep` keeps the seed. -/
theorem mem_iterate_reachStep {ctx : RecCtx} {x : Nat} :
    ∀ (n : Nat) {s : List Nat}, x ∈ s → x ∈ (reachStep ctx)^[n] s := by
  intro n
  induction n with
  | zero => intro s h; simpa using h
  | succ n ih =>
      intro s h
      rw [Function.iterate_succ_apply]
      exact ih (mem_reachStep_of_mem h)

/-- The reachability query holds for every direct local callee: the search
is seeded with the direct callees of the root. -/
theorem reachable_of_direct_callee {ctx : RecCtx} {root g : Nat}
    (h : g ∈ localCallees ctx root) :
    mir_callgraph_reachable ctx root g = true := by
  unfold mir_callgraph_reachable
  exact List.elem_eq_true_of_mem (mem_iterate_reachStep _ h)

/-- Every local callee listed for a function in the unit is a direct local
callee of that function's id. -/
theorem mem_localCallees {ctx : RecCtx} {f : FnItem} {g : Nat}
    (hf : RecDef.fnDef f ∈ ctx.defs) (hg : CalleeRef.localDef g ∈ f.callees) :
    g ∈ localCallees ctx f.id := by
  unfold localCallees
  rw [List.mem_flatten]
  refine ⟨f.callees.filterMap fun c =>
    match c with
    | CalleeRef.localDef i => some i
    | CalleeRef.externalDef => none, ?_, ?_⟩
  · rw [List.mem_map]
    exact ⟨.fnDef f, hf, if_pos rfl⟩
  · rw [List.mem_filterMap]
    exact ⟨.localDef g, hg, rfl⟩

/-- The recursion checker reports a violation for every local call edge of
every non-const function: the query is issued with the caller as root and
the callee as target, and a direct callee is always reachable from its
caller. -/
theorem direct_edge_flagged {ctx : RecCtx} {f : FnItem} {g : Nat}
    (hf : RecDef.fnDef f ∈ ctx.defs) (hc : f.constness ≠ .const)
    (hg : CalleeRef.localDef g ∈ f.callees) :
    ({ callee := g, caller := f.id } : Recursion) ∈ recursion_errors ctx := by
  simp only [recursion_errors, List.mem_flatMap]
  refine ⟨.fnDef f, hf, ?_⟩
  simp only [if_neg hc, List.mem_filterMap]
  refine ⟨.localDef g, hg, ?_⟩
  simp [reachable_of_direct_callee (mem_localCallees hf hg)]

/-!
## Claim theorems
-/

/-- C1 (refuted by the code): on the two independent acyclic chains
`X → Y → Z` and `P → Q` the claim expects `no_recursion` to return
`Ok(())` with zero violations; the code instead reports a violation for
every local call edge, because the reachability query is issued with the
caller as root and the callee as target ("does the caller transitively
call the callee"), which holds trivially for each direct edge. -/
theorem acyclic_chains_flagged :
    no_recursion chainCtx =
      .error [{ callee := 1, caller := 0 }, { callee := 2, caller := 1 },
              { callee := 4, caller := 3 }] := rfl

/-- C2 (refuted by the code): a trait path that is only a proper prefix of
the Sink identity is accepted by `is_sink_trait_path` (the `zip` stops at
the shorter sequence), so `collect_from` places the impl with trait path
`permute` in `sinks` (id `11`); the impl whose path equals the Source
identity exactly lands in `sources` (id `10`). -/
theorem sink_prefix_classified :
    is_sink_trait_path [some "permute"] = true ∧
    collect_from capRegistryItems = { sinks := [11], sources := [10] } :=
  ⟨by decide, by decide⟩

/-- C3: after `filter_not_in` with the public type ids, the public-type
list, the sink list and the source list are pairwise disjoint (ids of
distinct items being distinct). -/
theorem classification_disjoint (items : List HirItem)
    (hnodup : (items.map HirItem.id).Nodup) :
    (∀ x ∈ (filter_not_in (collect_from items) (type_ids items)).sinks,
        x ∉ type_ids items) ∧
    (∀ x ∈ (filter_not_in (collect_from items) (type_ids items)).sources,
        x ∉ type_ids items) ∧
    (∀ x ∈ (filter_not_in (collect_from items) (type_ids items)).sinks,
        x ∉ (filter_not_in (collect_from items) (type_ids items)).sources) := by
  refine ⟨?_, ?_, ?_⟩
  · intro x hx
    simp only [filter_not_in] at hx
    have h2 := List.of_mem_filter hx
    simpa using h2
  · intro x hx
    simp only [filter_not_in] at hx
    have h2 := List.of_mem_filter hx
    simpa using h2
  · intro x hx hy
    simp only [filter_not_in] at hx hy
    have hx2 : x ∈ (collect_from items).sinks := List.mem_of_mem_filter hx
    have hy2 : x ∈ (collect_from items).sources := List.mem_of_mem_filter hy
    obtain ⟨it1, hm1, hs1, hid1⟩ := mem_collect_sinks.mp hx2
    obtain ⟨it2, hm2, hs2, _, hid2⟩ := mem_collect_sources.mp hy2
    have heq : it1 = it2 :=
      List.inj_on_of_nodup_map hnodup (mem_of_mem_impls hm1)
        (mem_of_mem_impls hm2) (hid1.trans hid2.symm)
    rw [heq, hs2] at hs1
    exact Bool.false_ne_true hs1

/-- Witness for C3 at a concrete model. -/
theorem classification_disjoint_witness :
    11 ∉ (filter_not_in (collect_from capRegistryItems)
      (type_ids capRegistryItems)).sources :=
  (classification_disjoint capRegistryItems (by decide)).2.2 11 (by decide)

/-- C4: a model containing a non-const function whose body's traversal
reaches a raw `loop` node is rejected by `no_forbidden_loops`, and the
check short-circuits: once an item fails, the checker's result is `false`
independently of the remaining items. -/
theorem loop_rejected :
    (∀ (items : List Item) (sig : FnSig) (body : Expr),
        Item.mk (.fn sig body) ∈ items → sig.constness ≠ .const →
        ReachE body .loop → no_forbidden_loops items = false) ∧
    (∀ (item : Item) (rest rest2 : List Item), check_item item = false →
        no_forbidden_loops (item :: rest) = false ∧
        no_forbidden_loops (item :: rest) =
          no_forbidden_loops (item :: rest2)) := by
  constructor
  · intro items sig body hmem hconst hreach
    have hb : check_expr body = false :=
      reachE_false hreach (by simp [check_expr])
    have hi : check_item ⟨.fn sig body⟩ = false := by
      simp [check_item, if_neg hconst, check_body, hb]
    refine Bool.eq_false_iff.mpr fun htrue => ?_
    have := (List.all_eq_true.mp htrue) _ hmem
    rw [hi] at this
    exact Bool.false_ne_true this
  · intro item rest rest2 h
    constructor <;> simp [no_forbidden_loops, h]

/-- Witness for C4 at concrete models. -/
theorem loop_rejected_witness :
    no_forbidden_loops [⟨.fn ⟨.notConst⟩ (.binary .lit .loop)⟩] = false ∧
    (no_forbidden_loops [⟨.fn ⟨.notConst⟩ .loop⟩, ⟨.other⟩] = false ∧
     no_forbidden_loops [⟨.fn ⟨.notConst⟩ .loop⟩, ⟨.other⟩] =
       no_forbidden_loops [⟨.fn ⟨.notConst⟩ .loop⟩]) :=
  ⟨loop_rejected.1 _ ⟨.notConst⟩ (.binary .lit .loop) (by simp) (by decide)
      (ReachE.binaryR (by simp [check_expr]) (.refl _)),
   loop_rejected.2 ⟨.fn ⟨.notConst⟩ .loop⟩ [⟨.other⟩] []
      (by simp [check_item, check_body, check_expr])⟩

/-- C5: a pattern-match node marked as desugared for-loop iteration is
rejected immediately — for every scrutinee and arm list the check is
`false`, identically to a bare `loop` node — and a non-const function
whose body's traversal reaches such a node makes `no_forbidden_loops`
return `false`. -/
theorem for_desugar_rejected :
    (∀ (scrut : Expr) (arms : List Expr),
        check_expr (.matchE scrut arms .forLoopDesugar) = false ∧
        check_expr (.matchE scrut arms .forLoopDesugar) = check_expr .loop) ∧
    (∀ (items : List Item) (sig : FnSig) (body scrut : Expr)
        (arms : List Expr),
        Item.mk (.fn sig body) ∈ items → sig.constness ≠ .const →
        ReachE body (.matchE scrut arms .forLoopDesugar) →
        no_forbidden_loops items = false) := by
  constructor
  · intro scrut arms
    constructor <;> simp [check_expr]
  · intro items sig body scrut arms hmem hconst hreach
    have hb : check_expr body = false :=
      reachE_false hreach (by simp [check_expr])
    have hi : check_item ⟨.fn sig body⟩ = false := by
      simp [check_item, if_neg hconst, check_body, hb]
    refine Bool.eq_false_iff.mpr fun htrue => ?_
    have := (List.all_eq_true.mp htrue) _ hmem
    rw [hi] at this
    exact Bool.false_ne_true this

/-- Witness for C5 at concrete models. -/
theorem for_desugar_rejected_witness :
    (check_expr (.matchE .lit [] .forLoopDesugar) = false ∧
     check_expr (.matchE .lit [] .forLoopDesugar) = check_expr .loop) ∧
    no_forbidden_loops
      [⟨.fn ⟨.notConst⟩ (.matchE .path [] .forLoopDesugar)⟩] = false :=
  ⟨for_desugar_rejected.1 .lit [],
   for_desugar_rejected.2 _ ⟨.notConst⟩ _ .path [] (by simp) (by decide)
     (.refl _)⟩

/-- C6: a const (terminating) function item is accepted by the loop
checker with no dependence on its body, and every violation reported by
the recursion checker names a non-const function as caller, so content
inside a terminating item never produces a violation. -/
theorem terminating_exemption :
    (∀ (sig : FnSig) (body : Expr), sig.constness = .const →
        check_item ⟨.fn sig body⟩ = true) ∧
    (∀ (ctx : RecCtx) (errs : List Recursion),
        no_recursion ctx = .error errs →
        ∀ v ∈ errs, v.caller ∈ nonconst_fn_ids ctx) := by
  constructor
  · intro sig body h
    simp [check_item, h]
  · intro ctx errs herr v hv
    have herrs : errs = recursion_errors ctx := by
      unfold no_recursion at herr
      split at herr
      · cases herr
      · cases herr
        rfl
    subst herrs
    simp only [recursion_errors, List.mem_flatMap] at hv
    obtain ⟨d, hd, hvd⟩ := hv
    cases d with
    | otherDef => simp at hvd
    | fnDef f =>
      by_cases hc : f.constness = .const
      · simp [hc] at hvd
      · have hcaller : v.caller = f.id := by
          simp only [if_neg hc, List.mem_filterMap] at hvd
          obtain ⟨c, _, hsome⟩ := hvd
          cases c with
          | externalDef => simp at hsome
          | localDef g =>
            by_cases hr : mir_callgraph_reachable ctx f.id g
            · simp only [if_pos hr, Option.some_inj] at hsome
              rw [← hsome]
            · simp [hr] at hsome
        rw [hcaller]
        simp only [nonconst_fn_ids, List.mem_filterMap]
        exact ⟨.fnDef f, hd, by simp [hc]⟩

/-- Witness for C6 at concrete inputs. -/
theorem terminating_exemption_witness :
    check_item ⟨.fn ⟨.const⟩ .loop⟩ = true ∧
    5 ∈ nonconst_fn_ids selfRecCtx :=
  ⟨terminating_exemption.1 ⟨.const⟩ .loop rfl,
   terminating_exemption.2 selfRecCtx [{ callee := 5, caller := 5 }] rfl
     { callee := 5, caller := 5 } (by simp)⟩

/-- C7: a single non-terminating self-recursive function `D` (id `5`)
makes `no_recursion` return `Err` with exactly the one violation
`{caller: D, callee: D}`. -/
theorem self_recursion_single_violation :
    no_recursion selfRecCtx = .error [{ callee := 5, caller := 5 }] := rfl

/-- C8: a const closure is accepted without its body being traversed, and
a non-const closure's body is checked exactly like a function body. -/
theorem closure_const_trusted :
    (∀ body : Expr, check_expr (.closure .const body) = true) ∧
    (∀ body : Expr, check_expr (.closure .notConst body) = check_body body) := by
  constructor <;> intro body <;> simp [check_expr]

/-- C9: the check of a call node ignores the callee subexpression (it is
only logged) and holds exactly when the check holds for every argument. -/
theorem call_checks_args_only :
    (∀ (f g : Expr) (args : List Expr),
        check_expr (.call f args) = check_expr (.call g args)) ∧
    (∀ (f : Expr) (args : List Expr),
        check_expr (.call f args) = true ↔
          ∀ a ∈ args, check_expr a = true) := by
  constructor
  · intro f g args
    simp [check_expr]
  · intro f args
    rw [show check_expr (.call f args) = check_exprs args by simp [check_expr]]
    exact check_exprs_eq_true_iff args

/-- C10 (refuted by the code): with one public ADT (id `1`) and one Sink
impl (id `2`), `filter_not_in` keeps the impl id (it removes exactly the
ids that are in `pub_types`), and the subsequent `position` lookup of that
id in `pub_types` finds nothing, so the `expect` panics — modelled by the
`none` result. -/
theorem classify_lookup_fails :
    run_analyze_classify lookupItems = none := by decide

end Permute
